import Mathlib

/-!
Verification of the finchan scheduler extension (`finchan/exts/scheduler.py`).

The Python code is shallowly embedded: `datetime` values become the `DateTime`
structure (second granularity, proleptic Gregorian calendar), `relativedelta`
addition becomes `addDelta`, the mutable `Job` object is split into the
builder-phase record `JobCfg` and the registered-job record `Job`, and the
`JobMananger` job list is passed explicitly.  `random.randint(min_step,
max_step)` draws are supplied as an explicit stream `draws : Nat → Nat`.
Python exceptions are modelled with `Except PyErr`; an operation that would
raise propagates an error value instead of returning normally.  The unbounded
`while` loops are given explicit fuel; exhausting the fuel yields `none`.
-/

/-- Calendar timestamp at second granularity, mirroring the fields of
`datetime.datetime` that the scheduler reads (microseconds are never used by
the scheduler's own arithmetic). -/
structure DateTime where
  year : Nat
  month : Nat
  day : Nat
  hour : Nat
  minute : Nat
  second : Nat
  deriving DecidableEq, Repr

/-- Gregorian leap-year test. -/
def isLeap (y : Nat) : Bool :=
  (y % 4 == 0 && y % 100 != 0) || y % 400 == 0

/-- Number of days in a month of a given year. -/
def daysInMonth (y m : Nat) : Nat :=
  if m = 2 then (if isLeap y then 29 else 28)
  else if m = 4 ∨ m = 6 ∨ m = 9 ∨ m = 11 then 30
  else 31

/-- Days since 0000-03-01 of a civil date (standard civil-calendar algorithm). -/
def daysFromCivil (y m d : Nat) : Nat :=
  let y' := if m ≤ 2 then y - 1 else y
  let era := y' / 400
  let yoe := y' % 400
  let mp := if m > 2 then m - 3 else m + 9
  let doy := (153 * mp + 2) / 5 + (d - 1)
  let doe := yoe * 365 + yoe / 4 - yoe / 100 + doy
  era * 146097 + doe

/-- Inverse of `daysFromCivil`: civil date of a day count since 0000-03-01. -/
def civilFromDays (z : Nat) : Nat × Nat × Nat :=
  let era := z / 146097
  let doe := z % 146097
  let yoe := (doe - doe / 1460 + doe / 36524 - doe / 146096) / 365
  let y := yoe + era * 400
  let doy := doe - (365 * yoe + yoe / 4 - yoe / 100)
  let mp := (5 * doy + 2) / 153
  let d := doy - (153 * mp + 2) / 5 + 1
  let m := if mp < 10 then mp + 3 else mp - 9
  (if m ≤ 2 then y + 1 else y, m, d)

/-- Absolute second count of a timestamp (on the same 0000-03-01 epoch). -/
def toSecs (dt : DateTime) : Nat :=
  daysFromCivil dt.year dt.month dt.day * 86400
    + dt.hour * 3600 + dt.minute * 60 + dt.second

/-- Timestamp of an absolute second count. -/
def fromSecs (s : Nat) : DateTime :=
  let rem := s % 86400
  let c := civilFromDays (s / 86400)
  ⟨c.1, c.2.1, c.2.2, rem / 3600, rem % 3600 / 60, rem % 60⟩

/-- Python `datetime` comparison `a < b` (field order agrees with the absolute
second count for in-range dates). -/
def dtLt (a b : DateTime) : Bool :=
  toSecs a < toSecs b

/-- Exact-duration addition of `n` seconds (`relativedelta(seconds=n)`). -/
def addSeconds (dt : DateTime) (n : Nat) : DateTime :=
  fromSecs (toSecs dt + n)

/-- Calendar-correct month addition (`relativedelta(months=n)`): the day of
month is clamped to the length of the target month. -/
def addMonths (dt : DateTime) (n : Nat) : DateTime :=
  let tm := dt.month - 1 + n
  let y := dt.year + tm / 12
  let m := tm % 12 + 1
  ⟨y, m, min dt.day (daysInMonth y m), dt.hour, dt.minute, dt.second⟩

/-- Calendar-correct year addition (`relativedelta(years=n)`). -/
def addYears (dt : DateTime) (n : Nat) : DateTime :=
  let y := dt.year + n
  ⟨y, dt.month, min dt.day (daysInMonth y dt.month), dt.hour, dt.minute, dt.second⟩

/-- The `unit` field of a `Job`; `Job.unit_types` in the source. -/
inductive TimeUnit
  | once
  | seconds
  | minutes
  | hours
  | days
  | weeks
  | months
  | years
  deriving DecidableEq, Repr

/-- One advancement of a timestamp by `step` units:
`timedelta(**{self.unit: step})` where `timedelta` is `relativedelta`.
`_schedule_first_run` maps `weeks` to `days = step * 7`, which coincides with
`relativedelta(weeks=step)` used by `_schedule_next_run`. -/
def addDelta (u : TimeUnit) (step : Nat) (dt : DateTime) : DateTime :=
  match u with
  | TimeUnit.once => dt
  | TimeUnit.seconds => addSeconds dt step
  | TimeUnit.minutes => addSeconds dt (step * 60)
  | TimeUnit.hours => addSeconds dt (step * 3600)
  | TimeUnit.days => addSeconds dt (step * 86400)
  | TimeUnit.weeks => addSeconds dt (step * 7 * 86400)
  | TimeUnit.months => addMonths dt step
  | TimeUnit.years => addYears dt step

/-- The keyword set passed to `env.now.replace(**replay_dict)`: each field is
`some v` exactly when `_schedule_first_run` puts it into `replay_dict`. -/
structure Replay where
  ryear : Option Nat
  rmonth : Option Nat
  rday : Option Nat
  rhour : Option Nat
  rminute : Option Nat
  rsecond : Option Nat
  deriving DecidableEq, Repr

/-- Python `datetime.replace(**kwargs)`: overwrite the supplied fields. -/
def DateTime.replace (d : DateTime) (r : Replay) : DateTime :=
  ⟨r.ryear.getD d.year, r.rmonth.getD d.month, r.rday.getD d.day,
   r.rhour.getD d.hour, r.rminute.getD d.minute, r.rsecond.getD d.second⟩

/-- The `replay_dict` built by `_schedule_first_run` for a non-once unit:
a `year` entry when the anchor's year is behind `now`, then the unit-specific
fields copied from the anchor (`offset_dt`).  The source has branches for
`minutes`, `hours`, `days`, `months` and `years` only; `seconds` and `weeks`
fall through with no extra field. -/
def replayOf (u : TimeUnit) (offset now : DateTime) : Replay :=
  let r0 : Replay := ⟨none, none, none, none, none, none⟩
  let r1 := if offset.year < now.year then { r0 with ryear := some now.year } else r0
  match u with
  | TimeUnit.minutes => { r1 with rsecond := some offset.second }
  | TimeUnit.hours => { r1 with rminute := some offset.minute, rsecond := some offset.second }
  | TimeUnit.days =>
      { r1 with rhour := some offset.hour, rminute := some offset.minute,
                rsecond := some offset.second }
  | TimeUnit.months =>
      { r1 with rday := some offset.day, rhour := some offset.hour,
                rminute := some offset.minute, rsecond := some offset.second }
  | TimeUnit.years =>
      { r1 with rmonth := some offset.month, rday := some offset.day,
                rhour := some offset.hour, rminute := some offset.minute,
                rsecond := some offset.second }
  | _ => r1

/-- `bench_dt = env.now.replace(**replay_dict)` in `_schedule_first_run`. -/
def benchOf (u : TimeUnit) (offset now : DateTime) : DateTime :=
  now.replace (replayOf u offset now)

/-- The catch-up loop of `_schedule_first_run`:
`while self.next_run < env.now: self.last_run = self.next_run;
self._schedule_next_run()`.  `next` is the current `next_run`, `last` the
current `last_run`; each iteration redraws `draws idx`.  Returns `none` when
the fuel is exhausted. -/
def catchUp : Nat → (Nat → Nat) → Nat → TimeUnit → DateTime → DateTime →
    Option DateTime → Option (DateTime × Option DateTime)
  | 0, _, _, _, _, _, _ => none
  | fuel + 1, draws, idx, u, now, next, _last =>
    if dtLt next now then
      catchUp fuel draws (idx + 1) u now (addDelta u (draws idx) next) (some next)
    else
      some (next, _last)

/-- `Job._schedule_first_run`, returning the resulting
`(next_run, last_run)` pair.  For `once` units the anchor itself becomes
`next_run` and the loop never runs; otherwise the first random step
(`draws 0`) is added to the bench instant and the catch-up loop follows. -/
def scheduleFirstRun (fuel : Nat) (draws : Nat → Nat) (u : TimeUnit)
    (offset now : DateTime) : Option (DateTime × Option DateTime) :=
  if u = TimeUnit.once then
    some (offset, none)
  else
    catchUp fuel draws 1 u now (addDelta u (draws 0) (benchOf u offset now)) none

/-- Python exceptions surfaced by the scheduler code. -/
inductive PyErr
  | assertionError
  | typeError
  | attributeError
  deriving DecidableEq, Repr

/-- An opaque Python value used as a tag; `hashable` records whether
`isinstance(tag, collections.Hashable)` holds for it. -/
structure PyObj where
  val : Nat
  hashable : Bool
  deriving DecidableEq, Repr

/-- Builder-phase state of a `Job` object: the fields touched by the
configuration chain before `Job.do` registers the job.  `funcBound` records
whether `event_kwargs` already carries the callback. -/
structure JobCfg where
  unit : Option TimeUnit
  min_step : Nat
  max_step : Nat
  offset_dt : DateTime
  tags : List PyObj
  funcBound : Bool
  deriving DecidableEq, Repr

/-- A registered job as the `JobMananger` sees it after `Job.do`:
`next_run` is always set.  `jid` stands for the unique `job_id`; the event
route `Scheduler.<job_id>` is identified with `jid`. -/
structure Job where
  jid : Nat
  unit : TimeUnit
  min_step : Nat
  max_step : Nat
  offset_dt : DateTime
  last_run : Option DateTime
  next_run : DateTime
  deriving DecidableEq, Repr

/-- A fire event as pushed to the dispatcher: the route key
(`Scheduler.<job_id>`, identified with the job id) and the firing instant
`dt=self.next_run`. -/
structure SEvent where
  ename : Nat
  edt : DateTime
  deriving DecidableEq, Repr

/-- `JobMananger.add_job`: plain append, so registration order is list order. -/
def JobMananger.add_job (jobs : List Job) (j : Job) : List Job :=
  jobs ++ [j]

/-- Accumulator of Python `min(self.jobs)`: scan the remaining list, replacing
the current best exactly when the candidate compares strictly less via
`Job.__lt__` (which compares `next_run` only). -/
def pyMinAux (best : Job) : List Job → Job
  | [] => best
  | j :: rest => pyMinAux (if dtLt j.next_run best.next_run then j else best) rest

/-- `JobMananger.get_next_job`: `None` when the registry is empty, else
`min(self.jobs)`. -/
def JobMananger.get_next_job : List Job → Option Job
  | [] => none
  | j :: rest => some (pyMinAux j rest)

/-- `JobMananger.cancel`: `list.remove` of the first matching element,
swallowing the `ValueError` when the job is absent. -/
def JobMananger.cancel : List Job → Job → List Job
  | [], _ => []
  | x :: rest, j => if x = j then rest else x :: JobMananger.cancel rest j

/-- `JobMananger.idle_seconds`: `(next_job.next_run - env.now).total_seconds()`
where `next_job = get_next_job()`.  When the registry is empty `next_job` is
`None` and the attribute access raises `AttributeError`. -/
def JobMananger.idle_seconds (now : DateTime) (jobs : List Job) : Except PyErr Int :=
  match JobMananger.get_next_job jobs with
  | none => Except.error PyErr.attributeError
  | some j => Except.ok ((toSecs j.next_run : Int) - (toSecs now : Int))

/-- `Job.to`: `self.max_step = int(step)` followed by
`assert self.max_step >= self.min_step`.  The assignment precedes the assert,
so the returned configuration always carries the new `max_step`. -/
def Job.to (cfg : JobCfg) (stp : Nat) : (Except PyErr Unit) × JobCfg :=
  let cfg' := { cfg with max_step := stp }
  if cfg'.min_step ≤ cfg'.max_step then (Except.ok (), cfg')
  else (Except.error PyErr.assertionError, cfg')

/-- Set insertion for `self.tags.update(tags)`: duplicates are discarded. -/
def setInsert (s : List PyObj) (x : PyObj) : List PyObj :=
  if x ∈ s then s else s ++ [x]

/-- `set.update` over a list of new tags. -/
def setUpdate (s : List PyObj) (xs : List PyObj) : List PyObj :=
  xs.foldl setInsert s

/-- `Job.tag`: first check `all(isinstance(tag, collections.Hashable) ...)`
over every supplied tag, raising `TypeError` if any fails; only afterwards
update the tag set. -/
def Job.tag (cfg : JobCfg) (ts : List PyObj) : (Except PyErr Unit) × JobCfg :=
  if ts.all (fun t => t.hashable) then
    (Except.ok (), { cfg with tags := setUpdate cfg.tags ts })
  else
    (Except.error PyErr.typeError, cfg)

/-- `Job.do`: `assert self.unit in Job.unit_types` (unit still `None` fails the
assert before anything else), then bind the callback into `event_kwargs`,
compute the first run, and append the job to the manager.  `none` means the
catch-up loop ran out of fuel. -/
def Job.do' (fuel : Nat) (draws : Nat → Nat) (now : DateTime) (nid : Nat)
    (cfg : JobCfg) (jobs : List Job) :
    Option ((Except PyErr Unit) × JobCfg × List Job) :=
  match cfg.unit with
  | none => some (Except.error PyErr.assertionError, cfg, jobs)
  | some u =>
    let cfg' := { cfg with funcBound := true }
    match scheduleFirstRun fuel draws u cfg.offset_dt now with
    | none => none
    | some (nr, lr) =>
      some (Except.ok (), cfg',
        JobMananger.add_job jobs
          { jid := nid, unit := u, min_step := cfg.min_step, max_step := cfg.max_step,
            offset_dt := cfg.offset_dt, last_run := lr, next_run := nr })

/-- The firing of a due job, shared by both drivers: `Job.gen_event` (which
builds the event at `dt=self.next_run`, then for `once` cancels the job from
the manager, and otherwise sets `last_run = next_run` and recomputes
`next_run` with a fresh draw via `_schedule_next_run`) composed with the
driver's own `cancel` for `once` jobs. -/
def fireStep (draw : Nat) (j : Job) (jobs : List Job) : SEvent × List Job :=
  (⟨j.jid, j.next_run⟩,
    if j.unit = TimeUnit.once then
      JobMananger.cancel (JobMananger.cancel jobs j) j
    else
      jobs.map (fun x =>
        if x = j then
          { x with last_run := some j.next_run,
                   next_run := addDelta x.unit draw j.next_run }
        else x))

/-- Outcome of one iteration of `BackTrackScheduler.gen_events`. -/
inductive StepOut
  | fired (e : SEvent) (jobs : List Job)
  | halted (jobs : List Job)
  | crashed
  deriving DecidableEq, Repr

/-- The `break` condition of `BackTrackScheduler.gen_events`:
`limit_dt and next_job and next_job.next_run > limit_dt`, evaluated for a
non-`None` `next_job` (a missing `limit_dt` is falsy, so no break). -/
def overLimit (lim : Option DateTime) (j : Job) : Bool :=
  match lim with
  | some l => dtLt l j.next_run
  | none => false

/-- One iteration of `BackTrackScheduler.gen_events`: take `get_next_job()`;
`break` only when a `limit_dt` is supplied, a job exists, and its `next_run`
exceeds the limit; otherwise call `next_job.gen_event()` — which raises
`AttributeError` when `next_job` is `None` — and cancel once-jobs. -/
def backTrackStep (d : Nat) (lim : Option DateTime) (jobs : List Job) : StepOut :=
  match JobMananger.get_next_job jobs with
  | none => StepOut.crashed
  | some j =>
    if overLimit lim j then
      StepOut.halted jobs
    else
      StepOut.fired (fireStep d j jobs).1 (fireStep d j jobs).2

/-- Result of draining `BackTrackScheduler.gen_events` with bounded fuel:
the events pushed so far (in order) together with the final registry when the
loop breaks at the horizon, or the events pushed before the `None`
dereference when it crashes. -/
inductive RunResult
  | halted (events : List SEvent) (jobs : List Job)
  | crashed (events : List SEvent)
  | fuelOut
  deriving DecidableEq, Repr

/-- The drain loop of `BackTrackScheduler.gen_events`, iterated with fuel;
`acc` holds the pushed events in reverse. -/
def backTrackRun : Nat → (Nat → Nat) → Nat → Option DateTime → List Job →
    List SEvent → RunResult
  | 0, _, _, _, _, _ => RunResult.fuelOut
  | fuel + 1, draws, idx, lim, jobs, acc =>
    match backTrackStep (draws idx) lim jobs with
    | StepOut.crashed => RunResult.crashed acc.reverse
    | StepOut.halted js => RunResult.halted acc.reverse js
    | StepOut.fired e js => backTrackRun fuel draws (idx + 1) lim js (e :: acc)

/-- Events carried by a drain result. -/
def RunResult.events : RunResult → List SEvent
  | RunResult.halted es _ => es
  | RunResult.crashed es => es
  | RunResult.fuelOut => []

/-- Number of occurrences of a job in the registry (list membership count). -/
def occCount (j : Job) (l : List Job) : Nat :=
  l.count j

/-- Number of events routed to a given key. -/
def countName (n : Nat) (es : List SEvent) : Nat :=
  es.countP (fun e => e.ename == n)

lemma dtLt_true {a b : DateTime} : dtLt a b = true ↔ toSecs a < toSecs b := by
  simp [dtLt]

lemma dtLt_false {a b : DateTime} : dtLt a b = false ↔ ¬ toSecs a < toSecs b := by
  simp [dtLt]

lemma dtLt_irrefl (a : DateTime) : dtLt a a = false := by
  simp [dtLt]

lemma catchUp_exit (draws : Nat → Nat) (idx : Nat) (u : TimeUnit)
    (now next : DateTime) (last : Option DateTime) (fuel : Nat)
    (hf : 0 < fuel) (h : dtLt next now = false) :
    catchUp fuel draws idx u now next last = some (next, last) := by
  cases fuel with
  | zero => omega
  | succ n => simp [catchUp, h]

lemma catchUp_ge {fuel : Nat} {draws : Nat → Nat} {idx : Nat} {u : TimeUnit}
    {now next : DateTime} {last : Option DateTime} {nr : DateTime}
    {lr : Option DateTime}
    (h : catchUp fuel draws idx u now next last = some (nr, lr)) :
    dtLt nr now = false := by
  induction fuel generalizing idx next last with
  | zero => simp [catchUp] at h
  | succ n ih =>
    by_cases hlt : dtLt next now = true
    · rw [catchUp, if_pos hlt] at h
      exact ih h
    · rw [catchUp, if_neg hlt] at h
      obtain ⟨rfl, rfl⟩ : next = nr ∧ last = lr := by
        simpa using h
      simpa using hlt

lemma pyMinAux_spec (l : List Job) : ∀ best : Job,
    (pyMinAux best l = best ∧ ∀ m ∈ l, dtLt m.next_run best.next_run = false)
    ∨ (∃ pre sel post, l = pre ++ sel :: post
        ∧ pyMinAux best l = sel
        ∧ dtLt sel.next_run best.next_run = true
        ∧ (∀ m ∈ l, dtLt m.next_run sel.next_run = false)
        ∧ (∀ m ∈ pre, dtLt sel.next_run m.next_run = true)) := by
  induction l with
  | nil => intro best; left; exact ⟨rfl, by simp⟩
  | cons j rest ih =>
    intro best
    by_cases hj : dtLt j.next_run best.next_run = true
    · have hred : pyMinAux best (j :: rest) = pyMinAux j rest := by
        simp [pyMinAux, hj]
      rcases ih j with ⟨he, hm⟩ | ⟨pre, sel, post, hsplit, he, hlt, hmin, hpre⟩
      · right
        refine ⟨[], j, rest, by simp, hred.trans he, hj, ?_, by simp⟩
        intro m hm'
        rcases List.mem_cons.mp hm' with rfl | hmr
        · exact dtLt_irrefl _
        · exact hm m hmr
      · right
        refine ⟨j :: pre, sel, post, by rw [hsplit]; rfl, hred.trans he, ?_, ?_, ?_⟩
        · have h1 := dtLt_true.mp hlt
          have h2 := dtLt_true.mp hj
          exact dtLt_true.mpr (by omega)
        · intro m hm'
          rcases List.mem_cons.mp hm' with rfl | hmr
          · have h1 := dtLt_true.mp hlt
            exact dtLt_false.mpr (by omega)
          · exact hmin m hmr
        · intro m hm'
          rcases List.mem_cons.mp hm' with rfl | hmr
          · exact hlt
          · exact hpre m hmr
    · have hjf : dtLt j.next_run best.next_run = false := by
        revert hj; cases dtLt j.next_run best.next_run <;> simp
      have hred : pyMinAux best (j :: rest) = pyMinAux best rest := by
        simp [pyMinAux, hjf]
      rcases ih best with ⟨he, hm⟩ | ⟨pre, sel, post, hsplit, he, hlt, hmin, hpre⟩
      · left
        refine ⟨hred.trans he, ?_⟩
        intro m hm'
        rcases List.mem_cons.mp hm' with rfl | hmr
        · exact hjf
        · exact hm m hmr
      · right
        have h1 := dtLt_true.mp hlt
        have h2 := dtLt_false.mp hjf
        refine ⟨j :: pre, sel, post, by rw [hsplit]; rfl, hred.trans he, hlt, ?_, ?_⟩
        · intro m hm'
          rcases List.mem_cons.mp hm' with rfl | hmr
          · exact dtLt_false.mpr (by omega)
          · exact hmin m hmr
        · intro m hm'
          rcases List.mem_cons.mp hm' with rfl | hmr
          · exact dtLt_true.mpr (by omega)
          · exact hpre m hmr

lemma get_next_job_split (jobs : List Job) (h : jobs ≠ []) :
    ∃ pre sel post, jobs = pre ++ sel :: post
      ∧ JobMananger.get_next_job jobs = some sel
      ∧ (∀ m ∈ jobs, dtLt m.next_run sel.next_run = false)
      ∧ (∀ m ∈ pre, dtLt sel.next_run m.next_run = true) := by
  cases jobs with
  | nil => exact absurd rfl h
  | cons j rest =>
    have hg : JobMananger.get_next_job (j :: rest) = some (pyMinAux j rest) := rfl
    rcases pyMinAux_spec rest j with ⟨he, hm⟩ | ⟨pre, sel, post, hsplit, he, hlt, hmin, hpre⟩
    · refine ⟨[], j, rest, by simp, by rw [hg, he], ?_, by simp⟩
      intro m hm'
      rcases List.mem_cons.mp hm' with rfl | hmr
      · exact dtLt_irrefl _
      · exact hm m hmr
    · refine ⟨j :: pre, sel, post, by rw [hsplit]; rfl, by rw [hg, he], ?_, ?_⟩
      · intro m hm'
        rcases List.mem_cons.mp hm' with rfl | hmr
        · have h1 := dtLt_true.mp hlt
          exact dtLt_false.mpr (by omega)
        · exact hmin m hmr
      · intro m hm'
        rcases List.mem_cons.mp hm' with rfl | hmr
        · exact hlt
        · exact hpre m hmr

lemma get_next_job_mem {jobs : List Job} {j : Job}
    (h : JobMananger.get_next_job jobs = some j) : j ∈ jobs := by
  cases jobs with
  | nil => simp [JobMananger.get_next_job] at h
  | cons x rest =>
    obtain ⟨pre, sel, post, hsplit, hg, -, -⟩ := get_next_job_split (x :: rest) (by simp)
    rw [hg] at h
    obtain rfl : sel = j := by simpa using h
    rw [hsplit]
    simp

lemma mem_of_mem_cancel {l : List Job} {j x : Job}
    (h : x ∈ JobMananger.cancel l j) : x ∈ l := by
  induction l with
  | nil => simp [JobMananger.cancel] at h
  | cons y rest ih =>
    by_cases hy : y = j
    · rw [JobMananger.cancel, if_pos hy] at h
      exact List.mem_cons_of_mem y h
    · rw [JobMananger.cancel, if_neg hy] at h
      rcases List.mem_cons.mp h with rfl | hr
      · exact List.mem_cons_self x rest
      · exact List.mem_cons_of_mem y (ih hr)

lemma cancel_of_not_mem {l : List Job} {j : Job}
    (h : j ∉ l) : JobMananger.cancel l j = l := by
  induction l with
  | nil => rfl
  | cons y rest ih =>
    have hy : y ≠ j := fun he => h (he ▸ List.mem_cons_self y rest)
    rw [JobMananger.cancel, if_neg hy, ih (fun hm => h (List.mem_cons_of_mem y hm))]

lemma occCount_cons (j x : Job) (rest : List Job) :
    occCount j (x :: rest) = (if x = j then 1 else 0) + occCount j rest := by
  by_cases hx : x = j
  · simp [occCount, List.count_cons, hx]
    omega
  · simp [occCount, List.count_cons, hx]

lemma not_mem_of_occCount_zero {j : Job} {l : List Job}
    (h : occCount j l = 0) : j ∉ l := by
  induction l with
  | nil => simp
  | cons x rest ih =>
    rw [occCount_cons] at h
    by_cases hx : x = j
    · rw [if_pos hx] at h; omega
    · rw [if_neg hx] at h
      simp only [Nat.zero_add] at h
      intro hm
      rcases List.mem_cons.mp hm with rfl | hr
      · exact hx rfl
      · exact ih h hr

lemma not_mem_cancel_of_occCount_one {j : Job} {l : List Job}
    (h : occCount j l = 1) : j ∉ JobMananger.cancel l j := by
  induction l with
  | nil => simp [JobMananger.cancel]
  | cons x rest ih =>
    rw [occCount_cons] at h
    by_cases hx : x = j
    · rw [JobMananger.cancel, if_pos hx]
      rw [if_pos hx] at h
      exact not_mem_of_occCount_zero (by omega)
    · rw [JobMananger.cancel, if_neg hx]
      rw [if_neg hx] at h
      simp only [Nat.zero_add] at h
      intro hm
      rcases List.mem_cons.mp hm with rfl | hr
      · exact hx rfl
      · exact ih h hr

lemma fireStep_fst (draw : Nat) (j : Job) (jobs : List Job) :
    (fireStep draw j jobs).1 = ⟨j.jid, j.next_run⟩ := rfl

lemma fireStep_mem {draw : Nat} {k x : Job} {jobs : List Job}
    (hx : x ∈ (fireStep draw k jobs).2) : ∃ y ∈ jobs, x.jid = y.jid := by
  by_cases hu : k.unit = TimeUnit.once
  · simp only [fireStep, hu, if_pos] at hx
    exact ⟨x, mem_of_mem_cancel (mem_of_mem_cancel hx), rfl⟩
  · simp only [fireStep, if_neg hu] at hx
    rcases List.mem_map.mp hx with ⟨y, hy, hxy⟩
    by_cases hyk : y = k
    · refine ⟨y, hy, ?_⟩
      rw [← hxy, if_pos hyk]
    · refine ⟨y, hy, ?_⟩
      rw [← hxy, if_neg hyk]

lemma backTrackStep_fired {d : Nat} {lim : Option DateTime} {jobs : List Job}
    {e : SEvent} {js : List Job}
    (h : backTrackStep d lim jobs = StepOut.fired e js) :
    ∃ k, JobMananger.get_next_job jobs = some k
      ∧ e = (fireStep d k jobs).1 ∧ js = (fireStep d k jobs).2 := by
  unfold backTrackStep at h
  cases hg : JobMananger.get_next_job jobs with
  | none => rw [hg] at h; simp at h
  | some k =>
    rw [hg] at h
    have h' : (if overLimit lim k then StepOut.halted jobs
        else StepOut.fired (fireStep d k jobs).1 (fireStep d k jobs).2)
        = StepOut.fired e js := h
    by_cases hb : overLimit lim k = true
    · rw [if_pos hb] at h'
      simp at h'
    · rw [if_neg hb] at h'
      cases h'
      exact ⟨k, rfl, rfl, rfl⟩

lemma countName_reverse (n : Nat) (es : List SEvent) :
    countName n es.reverse = countName n es := by
  simp [countName, List.countP_reverse]

lemma countName_cons (n : Nat) (e : SEvent) (es : List SEvent) :
    countName n (e :: es) = (if e.ename = n then 1 else 0) + countName n es := by
  by_cases he : e.ename = n
  · simp [countName, List.countP_cons, he]
    omega
  · simp [countName, List.countP_cons, he]

lemma run_no_name (n : Nat) :
    ∀ (fuel : Nat) (draws : Nat → Nat) (idx : Nat) (lim : Option DateTime)
      (jobs : List Job) (acc : List SEvent),
      (∀ x ∈ jobs, x.jid ≠ n) →
      countName n (backTrackRun fuel draws idx lim jobs acc).events
        ≤ countName n acc := by
  intro fuel
  induction fuel with
  | zero =>
    intro draws idx lim jobs acc hjobs
    simp only [backTrackRun, RunResult.events, countName, List.countP_nil]
    exact Nat.zero_le _
  | succ m ih =>
    intro draws idx lim jobs acc hjobs
    rw [backTrackRun]
    cases hst : backTrackStep (draws idx) lim jobs with
    | crashed =>
      simp only [RunResult.events]
      rw [countName_reverse]
    | halted js =>
      simp only [RunResult.events]
      rw [countName_reverse]
    | fired e js =>
      obtain ⟨k, hk, he, hjs⟩ := backTrackStep_fired hst
      have hkmem : k ∈ jobs := get_next_job_mem hk
      have hkn : k.jid ≠ n := hjobs k hkmem
      have hen : e.ename ≠ n := by rw [he, fireStep_fst]; exact hkn
      have hjs' : ∀ x ∈ js, x.jid ≠ n := by
        intro x hx
        rw [hjs] at hx
        obtain ⟨y, hy, hxy⟩ := fireStep_mem hx
        rw [hxy]
        exact hjobs y hy
      calc countName n (backTrackRun m draws (idx + 1) lim js (e :: acc)).events
          ≤ countName n (e :: acc) := ih draws (idx + 1) lim js (e :: acc) hjs'
        _ = countName n acc := by rw [countName_cons, if_neg hen]; omega

lemma find?_first {α : Type} (p : α → Bool) (sel : α) :
    ∀ (pre post : List α), (∀ m ∈ pre, p m = false) → p sel = true →
      (pre ++ sel :: post).find? p = some sel := by
  intro pre
  induction pre with
  | nil =>
    intro post _ hp
    exact List.find?_cons_of_pos post hp
  | cons x rest ih =>
    intro post h hp
    have hx : p x = false := h x (List.mem_cons_self x rest)
    rw [List.cons_append, List.find?_cons_of_neg _ (by rw [hx]; simp)]
    exact ih post (fun m hm => h m (List.mem_cons_of_mem x hm)) hp

/-- Default anchor `parse_dt("1970-01-01 00:00:00")`. -/
def epochDT : DateTime := ⟨1970, 1, 1, 0, 0, 0⟩

/-- Concrete current instant 2024-01-01T00:00:00. -/
def now24 : DateTime := ⟨2024, 1, 1, 0, 0, 0⟩

/-- Scenario A current instant 2024-01-01T09:00:00. -/
def nowA : DateTime := ⟨2024, 1, 1, 9, 0, 0⟩

/-- Scenario A anchor: `parse_dt("10:00")`, i.e. 10:00:00 on the parse-day's
date; only its hour/minute/second and year are consulted for unit `days`. -/
def anchorA : DateTime := ⟨2024, 1, 1, 10, 0, 0⟩

/-- Anchor `parse_dt("friday 09:31")` for the weekly-unit check. -/
def anchorW : DateTime := ⟨2024, 1, 5, 9, 31, 0⟩

/-- Current instant 2024-01-01T12:00:00 for the weekly-unit check. -/
def nowW : DateTime := ⟨2024, 1, 1, 12, 0, 0⟩

/-- First of two registered jobs sharing one `next_run`. -/
def jT1 : Job := ⟨1, TimeUnit.seconds, 1, 1, epochDT, none, ⟨2024, 1, 1, 10, 0, 0⟩⟩

/-- Second of two registered jobs sharing one `next_run`. -/
def jT2 : Job := ⟨2, TimeUnit.seconds, 1, 1, epochDT, none, ⟨2024, 1, 1, 10, 0, 0⟩⟩

/-- A registered job already due before `now6`. -/
def jw6 : Job := ⟨4, TimeUnit.seconds, 1, 1, epochDT, none, ⟨2024, 1, 1, 9, 0, 0⟩⟩

/-- Current instant one hour past `jw6`'s `next_run`. -/
def now6 : DateTime := ⟨2024, 1, 1, 10, 0, 0⟩

/-- Scenario D once-job due at T1 = 2024-01-01T10:00:00. -/
def jD1 : Job := ⟨1, TimeUnit.once, 0, 0, epochDT, none, ⟨2024, 1, 1, 10, 0, 0⟩⟩

/-- Scenario D once-job due at T2 = 2024-01-02T10:00:00 (the horizon). -/
def jD2 : Job := ⟨2, TimeUnit.once, 0, 0, epochDT, none, ⟨2024, 1, 2, 10, 0, 0⟩⟩

/-- Scenario D once-job due at T3 = 2024-01-03T10:00:00, past the horizon. -/
def jD3 : Job := ⟨3, TimeUnit.once, 0, 0, epochDT, none, ⟨2024, 1, 3, 10, 0, 0⟩⟩

/-- A registered once-job used to instantiate the once-firing theorem. -/
def jW8 : Job := ⟨5, TimeUnit.once, 0, 0, epochDT, none, ⟨2024, 1, 1, 10, 0, 0⟩⟩

/-- A different registered job, absent from which cancellation is a no-op. -/
def jB8 : Job := ⟨6, TimeUnit.seconds, 1, 1, epochDT, none, ⟨2024, 1, 2, 10, 0, 0⟩⟩

/-- Builder state with `min_step = 2`, for the `to`-assertion check. -/
def cfgW1 : JobCfg := ⟨some TimeUnit.seconds, 2, 2, epochDT, [], false⟩

/-- Builder state with no unit chosen, for the `do`-assertion check. -/
def cfgW2 : JobCfg := ⟨none, 1, 1, epochDT, [], false⟩

/-- Builder state used to instantiate the tag-atomicity theorem. -/
def cfgT : JobCfg := ⟨some TimeUnit.seconds, 1, 1, epochDT, [], false⟩

/-- An unhashable tag value. -/
def badTag : PyObj := ⟨7, false⟩

/-- Claim C1 (counterexample): the claim asserts that first-run scheduling
always ends with `next_run` strictly greater than `now`, for every unit
including `Once`.  A `Once` job whose anchor lies in the past refutes it:
`_schedule_first_run` sets `next_run = offset_dt` and returns before the
catch-up loop, so `next_run` (1970) is strictly before `now` (2024). -/
theorem claim1_counterexample :
    scheduleFirstRun 1 (fun _ => 0) TimeUnit.once epochDT now24 = some (epochDT, none)
    ∧ dtLt epochDT now24 = true := by
  exact ⟨rfl, by decide⟩

/-- Claim C1 (amended): for every unit other than `Once`, whenever the
catch-up loop of `_schedule_first_run` completes, the resulting `next_run`
is not earlier than `now` — the loop condition is the strict `next_run <
env.now`, so equality with `now` is possible and `Once` jobs keep their
anchor unchanged. -/
theorem claim1_amended (fuel : Nat) (draws : Nat → Nat) (u : TimeUnit)
    (offset now : DateTime) (nr : DateTime) (lr : Option DateTime)
    (hu : u ≠ TimeUnit.once)
    (h : scheduleFirstRun fuel draws u offset now = some (nr, lr)) :
    dtLt nr now = false := by
  unfold scheduleFirstRun at h
  rw [if_neg hu] at h
  exact catchUp_ge h

/-- Witness for the amended claim C1 at a concrete seconds-unit job. -/
theorem claim1_witness :
    (TimeUnit.seconds ≠ TimeUnit.once)
    ∧ scheduleFirstRun 2 (fun _ => 1) TimeUnit.seconds epochDT now24
        = some (⟨2024, 1, 1, 0, 0, 1⟩, none)
    ∧ dtLt (⟨2024, 1, 1, 0, 0, 1⟩ : DateTime) now24 = false :=
  ⟨by decide, by decide,
   claim1_amended 2 (fun _ => 1) TimeUnit.seconds epochDT now24
     ⟨2024, 1, 1, 0, 0, 1⟩ none (by decide) (by decide)⟩

/-- Claim C2 (counterexample): with anchor "10:00", unit days, step 1 and
`now` = 2024-01-01T09:00:00, the computed first run is 2024-01-02T10:00:00,
not the claimed 2024-01-01T10:00:00 — the step is added to the bench before
the catch-up check ever runs. -/
theorem claim2_counterexample :
    (scheduleFirstRun 4 (fun _ => 1) TimeUnit.days anchorA nowA).map Prod.fst
      = some ⟨2024, 1, 2, 10, 0, 0⟩
    ∧ ((⟨2024, 1, 2, 10, 0, 0⟩ : DateTime) ≠ ⟨2024, 1, 1, 10, 0, 0⟩) := by
  exact ⟨by decide, by decide⟩

/-- Claim C2 (amended): with anchor "10:00", unit days, step 1 (so the forced
`randint(1, 1)` draw is 1) and `now` = 2024-01-01T09:00:00, the first run is
2024-01-02T10:00:00. -/
theorem claim2_amended (draws : Nat → Nat) (hd : draws 0 = 1) :
    (scheduleFirstRun 4 draws TimeUnit.days anchorA nowA).map Prod.fst
      = some ⟨2024, 1, 2, 10, 0, 0⟩ := by
  unfold scheduleFirstRun
  rw [if_neg (by decide : ¬ (TimeUnit.days = TimeUnit.once)), hd]
  rw [(by decide : addDelta TimeUnit.days 1 (benchOf TimeUnit.days anchorA nowA)
        = (⟨2024, 1, 2, 10, 0, 0⟩ : DateTime))]
  rw [catchUp_exit draws 1 TimeUnit.days nowA ⟨2024, 1, 2, 10, 0, 0⟩ none 4
        (by omega) (by decide)]
  rfl

/-- Witness for the amended claim C2 with the constant draw stream. -/
theorem claim2_witness :
    ((fun _ : Nat => 1) 0 = 1)
    ∧ (scheduleFirstRun 4 (fun _ : Nat => 1) TimeUnit.days anchorA nowA).map Prod.fst
        = some ⟨2024, 1, 2, 10, 0, 0⟩ :=
  ⟨rfl, claim2_amended (fun _ => 1) rfl⟩

/-- Claim C3: `get_next_job` is `min(self.jobs)` under `Job.__lt__`, which
replaces the current best only on strict `next_run` decrease, so it returns
the first registered job among those with minimal `next_run` — equivalently,
the first job in registration order that compares less-or-equal to every
registered job.  Being a pure function of the registry, repeated calls
without mutation agree. -/
theorem claim3_next_due_order (jobs : List Job) (h : jobs ≠ []) :
    JobMananger.get_next_job jobs
      = jobs.find? (fun sel => jobs.all (fun m => ! dtLt m.next_run sel.next_run)) := by
  obtain ⟨pre, sel, post, hsplit, hg, hmin, hpre⟩ := get_next_job_split jobs h
  subst hsplit
  rw [hg]
  have hselmem : sel ∈ pre ++ sel :: post :=
    List.mem_append_right _ (List.mem_cons_self _ _)
  refine (find?_first _ sel pre post ?_ ?_).symm
  · intro m hm
    cases hab : (pre ++ sel :: post).all (fun x => ! dtLt x.next_run m.next_run) with
    | false => rfl
    | true =>
      exfalso
      have hs := List.all_eq_true.mp hab sel hselmem
      rw [hpre m hm] at hs
      simp at hs
  · rw [List.all_eq_true]
    intro m hm
    rw [hmin m hm]
    rfl

/-- Witness for claim C3: two jobs registered in order with identical
`next_run`; the first registered is selected. -/
theorem claim3_witness :
    (([jT1, jT2] : List Job) ≠ [])
    ∧ JobMananger.get_next_job [jT1, jT2] = some jT1
    ∧ JobMananger.get_next_job [jT1, jT2]
        = [jT1, jT2].find?
            (fun sel => [jT1, jT2].all (fun m => ! dtLt m.next_run sel.next_run)) :=
  ⟨by decide, by decide, claim3_next_due_order [jT1, jT2] (by decide)⟩

/-- Claim C4 (code behaviour at the failing input): with an empty registry,
`BackTrackScheduler.gen_events` does not break — the break guard requires a
truthy `next_job` — and instead dereferences `None`, raising
`AttributeError`, with or without a replay horizon. -/
theorem claim4_empty_drain_crashes :
    backTrackStep 0 none ([] : List Job) = StepOut.crashed
    ∧ backTrackStep 0 (some now24) ([] : List Job) = StepOut.crashed
    ∧ backTrackRun 5 (fun _ => 0) 0 none [] [] = RunResult.crashed []
    ∧ backTrackRun 5 (fun _ => 0) 0 (some now24) [] [] = RunResult.crashed [] :=
  ⟨rfl, rfl, rfl, rfl⟩

/-- Claim C5 (code behaviour at the failing input): for unit `weeks`,
`_schedule_first_run` builds no replay entries from the anchor (there is no
`weeks` branch), so the bench instant is `now` itself — the anchor's hour,
minute and second (09:31:00) are not copied, contradicting the claimed
overwrite (and `Job.at`'s own docstring). -/
theorem claim5_weeks_bench_ignores_anchor :
    benchOf TimeUnit.weeks anchorW nowW = nowW
    ∧ nowW ≠ { nowW with hour := anchorW.hour, minute := anchorW.minute,
                         second := anchorW.second } := by
  exact ⟨by decide, by decide⟩

/-- Claim C6 (counterexample): on an empty registry `idle_seconds` does not
return a `None` value — `get_next_job()` yields `None` and the
`next_job.next_run` attribute access raises `AttributeError`. -/
theorem claim6_counterexample :
    JobMananger.idle_seconds now24 ([] : List Job) = Except.error PyErr.attributeError := rfl

/-- Claim C6 (amended): `idle_seconds` raises an `AttributeError` when the
registry is empty; otherwise it returns the signed seconds from `now` until
the next-due job's `next_run` (zero or negative when already due). -/
theorem claim6_amended (now : DateTime) (jobs : List Job) :
    (jobs = [] → JobMananger.idle_seconds now jobs = Except.error PyErr.attributeError)
    ∧ (∀ j, JobMananger.get_next_job jobs = some j →
        JobMananger.idle_seconds now jobs
          = Except.ok ((toSecs j.next_run : Int) - (toSecs now : Int))) := by
  constructor
  · intro h
    subst h
    rfl
  · intro j hj
    unfold JobMananger.idle_seconds
    rw [hj]

/-- Witness for the amended claim C6 at a job already due (negative value). -/
theorem claim6_witness :
    (JobMananger.get_next_job [jw6] = some jw6)
    ∧ JobMananger.idle_seconds now6 [jw6]
        = Except.ok ((toSecs jw6.next_run : Int) - (toSecs now6 : Int))
    ∧ JobMananger.idle_seconds now6 [jw6] = Except.ok (-3600 : Int) :=
  ⟨by decide, (claim6_amended now6 [jw6]).2 jw6 (by decide), rfl⟩

/-- Claim C7: the bounded drain over three once-jobs due T1 < T2 < T3 with
horizon T2 fires exactly the T1 and T2 jobs in that order, each at its own
`next_run` (the job at the horizon still fires, since the break needs
`next_run` strictly above the limit), and leaves the T3 job registered. -/
theorem claim7_scenario_d :
    backTrackRun 10 (fun _ => 0) 0 (some ⟨2024, 1, 2, 10, 0, 0⟩) [jD1, jD2, jD3] []
      = RunResult.halted
          [⟨1, ⟨2024, 1, 1, 10, 0, 0⟩⟩, ⟨2, ⟨2024, 1, 2, 10, 0, 0⟩⟩] [jD3] := by
  decide

/-- Claim C8: when the due job selected by the driver has unit `Once`, its
firing step produces exactly the one event routed to it (at its own
`next_run`); immediately afterwards the job is absent from the registry; the
rest of the drain produces no further event on its route (so it fires exactly
once over the run); and `JobMananger.cancel` of an absent job — the driver's
second removal after `gen_event` already cancelled it — is a no-op. -/
theorem claim8_once_fires_exactly_once (draw fuel idx : Nat) (draws : Nat → Nat)
    (lim : Option DateTime) (jobs : List Job) (j : Job)
    (_hsel : JobMananger.get_next_job jobs = some j)
    (honce : j.unit = TimeUnit.once)
    (huniq : ∀ x ∈ jobs, x.jid = j.jid → x = j)
    (hocc : occCount j jobs = 1) :
    (fireStep draw j jobs).1 = ⟨j.jid, j.next_run⟩
    ∧ j ∉ (fireStep draw j jobs).2
    ∧ countName j.jid
        (backTrackRun fuel draws idx lim (fireStep draw j jobs).2 []).events = 0
    ∧ (∀ l, j ∉ l → JobMananger.cancel l j = l) := by
  have hfs2 : (fireStep draw j jobs).2
      = JobMananger.cancel (JobMananger.cancel jobs j) j := by
    simp [fireStep, honce]
  have hnot1 : j ∉ JobMananger.cancel jobs j := not_mem_cancel_of_occCount_one hocc
  have hnoop : JobMananger.cancel (JobMananger.cancel jobs j) j
      = JobMananger.cancel jobs j := cancel_of_not_mem hnot1
  have hnot2 : j ∉ (fireStep draw j jobs).2 := by
    rw [hfs2, hnoop]
    exact hnot1
  refine ⟨rfl, hnot2, ?_, fun l hl => cancel_of_not_mem hl⟩
  have hall : ∀ x ∈ (fireStep draw j jobs).2, x.jid ≠ j.jid := by
    intro x hx hxe
    have hxjobs : x ∈ jobs := by
      rw [hfs2, hnoop] at hx
      exact mem_of_mem_cancel hx
    have hxj : x = j := huniq x hxjobs hxe
    rw [hxj] at hx
    exact hnot2 hx
  have hrun := run_no_name j.jid fuel draws idx lim (fireStep draw j jobs).2 [] hall
  simpa [countName] using hrun

/-- Witness for claim C8 at a concrete once-job registry. -/
theorem claim8_witness :
    (JobMananger.get_next_job [jW8] = some jW8)
    ∧ (jW8.unit = TimeUnit.once)
    ∧ (occCount jW8 [jW8] = 1)
    ∧ (fireStep 0 jW8 [jW8]).1 = ⟨jW8.jid, jW8.next_run⟩
    ∧ jW8 ∉ (fireStep 0 jW8 [jW8]).2
    ∧ countName jW8.jid
        (backTrackRun 3 (fun _ => 0) 0 none (fireStep 0 jW8 [jW8]).2 []).events = 0
    ∧ JobMananger.cancel [jB8] jW8 = [jB8] := by
  have H := claim8_once_fires_exactly_once 0 3 0 (fun _ => 0) none [jW8] jW8
    (by decide) (by decide) (by decide) (by decide)
  exact ⟨by decide, by decide, by decide, H.1, H.2.1, H.2.2.1, H.2.2.2 [jB8] (by decide)⟩

/-- Claim C9: `Job.to` with a maximum below `min_step` fails its assertion,
and `Job.do` invoked with no unit chosen fails its `unit in unit_types`
assertion first thing — the returned builder state and registry are exactly
the inputs, so no callback was bound, no first run computed, and no job
registered. -/
theorem claim9_config_errors (cfg cfg2 : JobCfg) (jobs : List Job)
    (stp fuel nid : Nat) (draws : Nat → Nat) (now : DateTime)
    (h1 : stp < cfg.min_step) (h2 : cfg2.unit = none) :
    (Job.to cfg stp).1 = Except.error PyErr.assertionError
    ∧ Job.do' fuel draws now nid cfg2 jobs
        = some (Except.error PyErr.assertionError, cfg2, jobs) := by
  constructor
  · have hc : ¬ (cfg.min_step ≤ stp) := by omega
    simp [Job.to, hc]
  · unfold Job.do'
    rw [h2]

/-- Witness for claim C9 at concrete misconfigured builder states. -/
theorem claim9_witness :
    (1 < cfgW1.min_step)
    ∧ (cfgW2.unit = none)
    ∧ (Job.to cfgW1 1).1 = Except.error PyErr.assertionError
    ∧ Job.do' 3 (fun _ => 1) now24 7 cfgW2 []
        = some (Except.error PyErr.assertionError, cfgW2, []) := by
  have H := claim9_config_errors cfgW1 cfgW2 [] 1 3 7 (fun _ => 1) now24
    (by decide) (by decide)
  exact ⟨by decide, by decide, H.1, H.2⟩

/-- Claim C10: `Job.tag` checks every supplied tag for hashability before
inserting any of them, so one unhashable tag raises `TypeError` and leaves
the builder state — in particular its tag set — exactly as it was. -/
theorem claim10_tag_atomic (cfg : JobCfg) (ts : List PyObj) (t : PyObj)
    (ht : t ∈ ts) (hh : t.hashable = false) :
    Job.tag cfg ts = (Except.error PyErr.typeError, cfg) := by
  have hall : (ts.all (fun x => x.hashable)) = false := by
    cases hab : ts.all (fun x => x.hashable) with
    | false => rfl
    | true =>
      exfalso
      have hx := List.all_eq_true.mp hab t ht
      rw [hh] at hx
      exact Bool.false_ne_true hx
  unfold Job.tag
  rw [hall]
  simp

/-- Witness for claim C10 at a concrete unhashable tag. -/
theorem claim10_witness :
    (badTag ∈ [badTag]) ∧ (badTag.hashable = false)
    ∧ Job.tag cfgT [badTag] = (Except.error PyErr.typeError, cfgT) :=
  ⟨by decide, rfl, claim10_tag_atomic cfgT [badTag] badTag (by decide) rfl⟩
